import Mathlib

/-!
Verification development for the command-resolution core of the repository
(`src/commands.rs`).  The data model and operations are shallowly embedded:
the grammar builder and its continuations are translated from
`src/commands.rs`; the index/label codec (`crate::util`), the
`SignalNameType` parser and the `fzcmd` expander are not present under
`src/`, so they are modelled from the specification (sections 4.2, 4.3),
each such definition carrying a doc comment saying so.
-/

set_option maxRecDepth 4000

/- ===================== Index/Label Codec (spec section 4.3) ===================== -/

/-- Modelled from the spec: the codec functions `uint_idx_to_alpha_idx` /
`alpha_idx_to_uint_idx` live in `crate::util`, which is absent from `src/`.
The alphabet is the 26 lowercase letters; digit `d` maps to letter
`'a' + d`. -/
def natToChar (d : Nat) : Char := Char.ofNat (97 + d)

/-- Modelled from the spec: label length is the minimum number of characters
over the 26-letter alphabet sufficient to represent `totalCount` distinct
positions (at least one character, since the spec requires `decode` to
reject the empty label while `decode (encode p n) = p` must hold).
Structural fuel version so that the kernel can evaluate it. -/
def labelWidthGo : Nat → Nat → Nat
  | 0, _ => 1
  | fuel+1, m => if m ≤ 26 then 1 else labelWidthGo fuel ((m + 25) / 26) + 1

/-- Modelled from the spec: minimal label width for `n` positions. -/
def labelWidth (n : Nat) : Nat := labelWidthGo n n

/-- Modelled from the spec: big-endian base-26 digits of `p`, exactly `k`
characters. -/
def encodeAux : Nat → Nat → List Char
  | 0, _ => []
  | k+1, p => encodeAux k (p / 26) ++ [natToChar (p % 26)]

/-- Modelled from the spec: `encode(position, totalCount) -> label`
(section 4.3). -/
def uint_idx_to_alpha_idx (idx total : Nat) : String :=
  String.mk (encodeAux (labelWidth total) idx)

/-- A character of the codec alphabet (lowercase ASCII letter). -/
def isAlphaLower (c : Char) : Bool := decide (97 ≤ c.toNat ∧ c.toNat ≤ 122)

/-- Modelled from the spec: `decode(label) -> position | no-match`
(section 4.3); no match for the empty label or characters outside the
alphabet. -/
def alpha_idx_to_uint_idx (s : String) : Option Nat :=
  if s.data.isEmpty then none
  else if s.data.all isAlphaLower then
    some (s.data.foldl (fun acc c => acc * 26 + (c.toNat - 97)) 0)
  else none

lemma natToChar_toNat : ∀ d, d < 26 → (natToChar d).toNat = 97 + d := by decide

lemma natToChar_alpha : ∀ d, d < 26 → isAlphaLower (natToChar d) = true := by decide

lemma encodeAux_all_alpha : ∀ k p, (encodeAux k p).all isAlphaLower = true := by
  intro k
  induction k with
  | zero => intro p; rfl
  | succ k ih =>
    intro p
    simp only [encodeAux, List.all_append, ih, List.all_cons, List.all_nil,
      Bool.and_true, Bool.true_and]
    exact natToChar_alpha (p % 26) (Nat.mod_lt _ (by norm_num))

lemma encodeAux_ne_nil (k p : Nat) (hk : 1 ≤ k) : encodeAux k p ≠ [] := by
  cases k with
  | zero => omega
  | succ k => simp [encodeAux]

lemma one_le_labelWidthGo : ∀ fuel m, 1 ≤ labelWidthGo fuel m := by
  intro fuel
  induction fuel with
  | zero => intro m; simp [labelWidthGo]
  | succ fuel ih =>
    intro m
    by_cases h : m ≤ 26 <;> simp [labelWidthGo, h]

lemma le_pow_labelWidthGo : ∀ fuel m, m ≤ fuel → m ≤ 26 ^ labelWidthGo fuel m := by
  intro fuel
  induction fuel with
  | zero => intro m hm; interval_cases m; simp [labelWidthGo]
  | succ fuel ih =>
    intro m hm
    by_cases h : m ≤ 26
    · simp [labelWidthGo, h]
    · have hrec : (m + 25) / 26 ≤ fuel := by omega
      have hle : (m + 25) / 26 ≤ 26 ^ labelWidthGo fuel ((m + 25) / 26) := ih _ hrec
      simp only [labelWidthGo, h, if_false]
      calc m ≤ 26 * ((m + 25) / 26) := by omega
        _ ≤ 26 * 26 ^ labelWidthGo fuel ((m + 25) / 26) := Nat.mul_le_mul_left _ hle
        _ = 26 ^ (labelWidthGo fuel ((m + 25) / 26) + 1) := by
            rw [pow_succ, Nat.mul_comm]

lemma le_pow_labelWidth (n : Nat) : n ≤ 26 ^ labelWidth n :=
  le_pow_labelWidthGo n n le_rfl

lemma decode_fold : ∀ k p, p < 26 ^ k →
    (encodeAux k p).foldl (fun acc c => acc * 26 + (c.toNat - 97)) 0 = p := by
  intro k
  induction k with
  | zero =>
    intro p hp
    interval_cases p
    rfl
  | succ k ih =>
    intro p hp
    have hdiv : p / 26 < 26 ^ k := by
      rw [Nat.div_lt_iff_lt_mul (by norm_num)]
      rw [pow_succ] at hp
      exact hp
    have hmod : (natToChar (p % 26)).toNat = 97 + p % 26 :=
      natToChar_toNat _ (Nat.mod_lt _ (by norm_num))
    simp only [encodeAux, List.foldl_append, List.foldl_cons, List.foldl_nil]
    rw [ih _ hdiv, hmod]
    omega

lemma codec_round_trip {n p : Nat} (hp : p < n) :
    alpha_idx_to_uint_idx (uint_idx_to_alpha_idx p n) = some p := by
  have hpow : p < 26 ^ labelWidth n := lt_of_lt_of_le hp (le_pow_labelWidth n)
  have hne : encodeAux (labelWidth n) p ≠ [] :=
    encodeAux_ne_nil _ _ (one_le_labelWidthGo n n)
  unfold alpha_idx_to_uint_idx uint_idx_to_alpha_idx
  rw [if_neg (by simpa [List.isEmpty_iff] using hne),
    if_pos (encodeAux_all_alpha _ _)]
  exact congrArg some (decode_fold _ _ hpow)

/-- C1: for every `totalCount n ≥ 1` and position `p < n`, decoding the
label produced by encoding `p` at count `n` returns `p`
(`alpha_idx_to_uint_idx (uint_idx_to_alpha_idx p n) = some p`), and for a
fixed `n` the encoding is injective on `[0, n)`, so encode/decode form a
total bijection between `[0, n)` and the produced labels. -/
theorem claim_C1 (n p : Nat) (hn : 1 ≤ n) (hp : p < n) :
    alpha_idx_to_uint_idx (uint_idx_to_alpha_idx p n) = some p ∧
    ∀ q, q < n → uint_idx_to_alpha_idx p n = uint_idx_to_alpha_idx q n → p = q := by
  refine ⟨codec_round_trip hp, fun q hq he => ?_⟩
  have h1 := codec_round_trip hp
  rw [he, codec_round_trip hq] at h1
  exact (Option.some.inj h1).symm

/-- Witness for C1 at `n = 3`, `p = 2`. -/
theorem claim_C1_witness :
    1 ≤ 3 ∧ 2 < 3 ∧ alpha_idx_to_uint_idx (uint_idx_to_alpha_idx 2 3) = some 2 :=
  ⟨by decide, by decide, (claim_C1 3 2 (by decide) (by decide)).1⟩

/- ===================== Actions and grammar data model ===================== -/

/-- Modelled from the spec: `SignalNameType` is declared at the crate root,
outside `src/`; a closed enum with literals `Local`, `Unique`, `Global`
(section 4.1, closed-enum argument). -/
inductive SignalNameType where
  | Local
  | Unique
  | Global
deriving DecidableEq

/-- Modelled from the spec: `FromStr` for `SignalNameType` is outside
`src/`; the token must equal one of the enum literals exactly, anything
else is no parse (section 4.1). -/
def SignalNameType.from_str (s : String) : Option SignalNameType :=
  if s = "Local" then some SignalNameType.Local
  else if s = "Unique" then some SignalNameType.Unique
  else if s = "Global" then some SignalNameType.Global
  else none

/-- Modelled from the spec: `crate::ScopeDescriptor`, a region reference,
by name or by resolved document index (section 3, Action). -/
inductive ScopeDescriptor where
  | Name : String → ScopeDescriptor
  | Id : Nat → ScopeDescriptor
deriving DecidableEq

/-- Modelled from the spec: `crate::SignalDescriptor`, an item reference,
by name or by resolved document index (section 3, Action). -/
inductive SignalDescriptor where
  | Name : String → SignalDescriptor
  | Id : Nat → SignalDescriptor
deriving DecidableEq

/-- Modelled from the spec: the `Message` action union declared at the
crate root; variants are those constructed in `src/commands.rs`, each
carrying fully parsed arguments. The zoom delta (an `f64` in the source)
is represented exactly as a rational. -/
inductive Message where
  | LoadVcd : String → Message
  | LoadVcdFromUrl : String → Message
  | ReloadConfig : Message
  | ScrollToStart : Message
  | ScrollToEnd : Message
  | CanvasZoom : Option Rat → Rat → Message
  | ZoomToFit : Message
  | ToggleMenu : Message
  | ToggleFullscreen : Message
  | AddScope : ScopeDescriptor → Message
  | SetActiveScope : ScopeDescriptor → Message
  | AddSignal : SignalDescriptor → Message
  | SignalColorChange : Option Nat → String → Message
  | ChangeSignalNameType : Option Nat → SignalNameType → Message
  | ForceSignalNameTypes : SignalNameType → Message
  | FocusSignal : Nat → Message
  | UnfocusSignal : Message
  | CommandPromptUpdate : String → List String → Message
deriving DecidableEq

/-- Modelled from the spec: `fzcmd::ParamGreed`; `Word` consumes up to the
next whitespace, `Rest` consumes all remaining text (section 3, Greed;
`Word` is the spec's `SingleToken`, `Rest` is `RestOfInput`). -/
inductive ParamGreed where
  | Word
  | Rest
deriving DecidableEq

/-- Modelled from the spec: `fzcmd::Command<Message>`, the grammar node —
`Terminal(Action)` or `NonTerminal(Greed, Candidates, Continuation)`
(section 3, CommandNode). The source continuation takes a second argument
that every use in `src/commands.rs` ignores (`|query, _|`), so it is
omitted. -/
inductive Command where
  | Terminal : Message → Command
  | NonTerminal : ParamGreed → List String → (String → Option Command) → Command

/-- The greed of a node (`none` for a `Terminal`). -/
def Command.greedOf : Command → Option ParamGreed
  | Command.Terminal _ => none
  | Command.NonTerminal g _ _ => some g

/-- The candidate list of a node (`none` for a `Terminal`). -/
def Command.candidatesOf : Command → Option (List String)
  | Command.Terminal _ => none
  | Command.NonTerminal _ cs _ => some cs

/- ===================== Document/config snapshot (State) ===================== -/

/-- One displayed signal entry of `state.vcd.signals`: only its document
signal index `idx` is read by `src/commands.rs`. -/
structure DisplayedSignal where
  idx : Nat

/-- The parts of the loaded-document state (`state.vcd`) read by
`src/commands.rs`: the key lists of `scopes_to_ids` / `signals_to_ids`
(only keys are used), the displayed-signal list, the name of a signal by
document index (`inner.signal_from_signal_idx(_).name()`), the active
scope, and the child signal indices of a scope
(`inner.get_children_signal_idxs`). -/
structure VcdData where
  scopes_to_ids : List String
  signals_to_ids : List String
  signals : List DisplayedSignal
  signal_name : Nat → String
  active_scope : Option Nat
  children_signal_idxs : Nat → List Nat

/-- The configured theme: `src/commands.rs` reads only the color-name keys. -/
structure Theme where
  colors : List String

structure Config where
  theme : Theme

/-- The state snapshot consumed by `get_parser`. -/
structure State where
  vcd : Option VcdData
  config : Config

/- BTreeMap model: `signals_in_active_scope` is collected into a
`BTreeMap<String, SignalIdx>`; insertion keeps keys sorted and a repeated
key overwrites the previous value. -/

def btreeInsert : List (String × Nat) → String × Nat → List (String × Nat)
  | [], kv => [kv]
  | (k, v) :: rest, kv =>
    match compare kv.1 k with
    | Ordering.lt => kv :: (k, v) :: rest
    | Ordering.eq => (kv.1, kv.2) :: rest
    | Ordering.gt => (k, v) :: btreeInsert rest kv

def btreeFromList (l : List (String × Nat)) : List (String × Nat) :=
  l.foldl btreeInsert []

def btreeGet (m : List (String × Nat)) (k : String) : Option Nat :=
  (m.find? (fun p => p.1 = k)).map (fun p => p.2)

/- ===================== Suggestion providers (src/commands.rs 34-104) ===================== -/

/-- `scopes`: keys of `scopes_to_ids`, empty when no document is loaded. -/
def scopes (state : State) : List String :=
  match state.vcd with
  | some v => v.scopes_to_ids
  | none => []

/-- `signals`: keys of `signals_to_ids`, empty when no document is loaded. -/
def signals (state : State) : List String :=
  match state.vcd with
  | some v => v.signals_to_ids
  | none => []

/-- `displayed_signals`: each displayed signal rendered as
`{alpha_idx}_{name}` where the alpha index encodes the display position at
the current displayed count. -/
def displayed_signals (state : State) : List String :=
  match state.vcd with
  | some v =>
    v.signals.enum.map (fun p =>
      uint_idx_to_alpha_idx p.1 v.signals.length ++ "_" ++ v.signal_name p.2.idx)
  | none => []

/-- `signals_in_active_scope`: the `(name, signal index)` map of the active
scope's children, empty (`unwrap_or_default`) when there is no document or
no active scope. -/
def signals_in_active_scope (state : State) : List (String × Nat) :=
  match state.vcd with
  | some vcd =>
    match vcd.active_scope with
    | some scope =>
      btreeFromList ((vcd.children_signal_idxs scope).map
        (fun signal_idx => (vcd.signal_name signal_idx, signal_idx)))
    | none => []
  | none => []

/-- `color_names`: keys of the theme color map. -/
def color_names (state : State) : List String := state.config.theme.colors

/-- The extension of a path string: the part after the final `.`, or none
when the name has no `.` (models `Path::extension`). -/
def file_extension (s : String) : Option String :=
  let rev := s.data.reverse
  let ext := rev.takeWhile (fun c => c != '.')
  if ext.length = rev.length then none
  else some (String.mk ext.reverse)

/-- `vcd_files`: the working-directory listing filtered to `.vcd` files.
The directory read (`fs::read_dir(".")`) is made explicit: `none` models a
failed read (which the source turns into an empty list), `some entries`
the listed paths. -/
def vcd_files (dir : Option (List String)) : List String :=
  match dir with
  | some entries => entries.filter (fun file => file_extension file = some "vcd")
  | none => []

/- ===================== Grammar builder (src/commands.rs 11-244) ===================== -/

/-- `single_word`: one `ParamGreed::Rest` node with the given suggestions
and continuation. -/
def single_word (suggestions : List String)
    (rest_command : String → Option Command) : Option Command :=
  some (Command.NonTerminal ParamGreed.Rest suggestions rest_command)

/-- `single_word_delayed_suggestions`: as `single_word`, but the
suggestion list is a thunk forced at node-construction time. -/
def single_word_delayed_suggestions (suggestions : Unit → List String)
    (rest_command : String → Option Command) : Option Command :=
  some (Command.NonTerminal ParamGreed.Rest (suggestions ()) rest_command)

def load_vcd_cont (word : String) : Option Command :=
  some (Command.Terminal (Message.LoadVcd word))

def load_url_cont (query : String) : Option Command :=
  some (Command.Terminal (Message.LoadVcdFromUrl query))

def module_add_cont (word : String) : Option Command :=
  some (Command.Terminal (Message.AddScope (ScopeDescriptor.Name word)))

def module_select_cont (word : String) : Option Command :=
  some (Command.Terminal (Message.SetActiveScope (ScopeDescriptor.Name word)))

def signal_add_cont (word : String) : Option Command :=
  some (Command.Terminal (Message.AddSignal (SignalDescriptor.Name word)))

def signal_add_from_module_cont (m : List (String × Nat)) (name : String) :
    Option Command :=
  (btreeGet m name).map (fun idx => Command.Terminal (Message.AddSignal (SignalDescriptor.Id idx)))

def signal_set_color_cont (word : String) : Option Command :=
  some (Command.Terminal (Message.SignalColorChange none word))

def signal_set_name_type_cont (word : String) : Option Command :=
  some (Command.Terminal (Message.ChangeSignalNameType none
    ((SignalNameType.from_str word).getD SignalNameType.Local)))

def signal_force_name_type_cont (word : String) : Option Command :=
  some (Command.Terminal (Message.ForceSignalNameTypes
    ((SignalNameType.from_str word).getD SignalNameType.Local)))

def signal_focus_cont (word : String) : Option Command :=
  let alpha_idx : String := String.mk (word.data.takeWhile (fun c => c != '_'))
  (alpha_idx_to_uint_idx alpha_idx).map
    (fun idx => Command.Terminal (Message.FocusSignal idx))

/-- The root candidate list of `get_parser` (src/commands.rs 108-131). -/
def root_candidate_list : List String :=
  ["load_vcd", "load_url", "config_reload", "scroll_to_start", "scroll_to_end",
   "zoom_in", "zoom_out", "zoom_fit", "toggle_menu", "toggle_fullscreen",
   "module_add", "module_select", "signal_add", "signal_add_from_scope",
   "signal_set_color", "signal_set_name_type", "signal_force_name_type",
   "signal_focus", "signal_unfocus"]

/-- The command names handled by the dispatch match (src/commands.rs
134-241); note `signal_add_from_module` here versus
`signal_add_from_scope` in `root_candidate_list`. -/
def dispatch_keys : List String :=
  ["load_vcd", "load_url", "config_reload", "scroll_to_start", "scroll_to_end",
   "zoom_in", "zoom_out", "zoom_fit", "toggle_menu", "toggle_fullscreen",
   "module_add", "module_select", "signal_add", "signal_add_from_module",
   "signal_set_color", "signal_set_name_type", "signal_force_name_type",
   "signal_focus", "signal_unfocus"]

/-- The root continuation of `get_parser` (the `match query` of
src/commands.rs 132-242). The working-directory listing `dir` is the
explicit stand-in for the `fs::read_dir` the `load_vcd` arm performs. -/
def dispatch (dir : Option (List String)) (state : State) (query : String) :
    Option Command :=
  if query = "load_vcd" then
    single_word_delayed_suggestions (fun _ => vcd_files dir) load_vcd_cont
  else if query = "load_url" then
    some (Command.NonTerminal ParamGreed.Rest [] load_url_cont)
  else if query = "config_reload" then some (Command.Terminal Message.ReloadConfig)
  else if query = "scroll_to_start" then some (Command.Terminal Message.ScrollToStart)
  else if query = "scroll_to_end" then some (Command.Terminal Message.ScrollToEnd)
  else if query = "zoom_in" then
    some (Command.Terminal (Message.CanvasZoom none (1 / 2)))
  else if query = "zoom_out" then
    some (Command.Terminal (Message.CanvasZoom none 2))
  else if query = "zoom_fit" then some (Command.Terminal Message.ZoomToFit)
  else if query = "toggle_menu" then some (Command.Terminal Message.ToggleMenu)
  else if query = "toggle_fullscreen" then
    some (Command.Terminal Message.ToggleFullscreen)
  else if query = "module_add" then single_word (scopes state) module_add_cont
  else if query = "module_select" then single_word (scopes state) module_select_cont
  else if query = "signal_add" then single_word (signals state) signal_add_cont
  else if query = "signal_add_from_module" then
    single_word ((signals_in_active_scope state).map (fun p => p.1))
      (signal_add_from_module_cont (signals_in_active_scope state))
  else if query = "signal_set_color" then
    single_word (color_names state) signal_set_color_cont
  else if query = "signal_set_name_type" then
    single_word ["Local", "Unique", "Global"] signal_set_name_type_cont
  else if query = "signal_force_name_type" then
    single_word ["Local", "Unique", "Global"] signal_force_name_type_cont
  else if query = "signal_focus" then
    single_word (displayed_signals state) signal_focus_cont
  else if query = "signal_unfocus" then some (Command.Terminal Message.UnfocusSignal)
  else none

/-- `get_parser` (src/commands.rs 11-244): the root grammar node. -/
def getParser (dir : Option (List String)) (state : State) : Command :=
  Command.NonTerminal ParamGreed.Word root_candidate_list (fun query => dispatch dir state query)

/-- A concrete snapshot with no document loaded and an empty palette. -/
def state0 : State := { vcd := none, config := { theme := { colors := [] } } }

/- ===================== Expander (spec section 4.2) ===================== -/

/-- ASCII lowercase fold, used for case-insensitive matching. -/
def charToLower (c : Char) : Char :=
  if 65 ≤ c.toNat ∧ c.toNat ≤ 90 then Char.ofNat (c.toNat + 32) else c

/-- Modelled from the spec: case fold of a whole string (section 4.2,
step 2: case-insensitive matching). -/
def lowerStr (s : String) : String := String.mk (s.data.map charToLower)

/-- Modelled from the spec: ordered-subsequence matching — the segment's
characters must appear in the candidate in order, not necessarily
contiguously (section 4.2, step 2). -/
def subseq : List Char → List Char → Bool
  | [], _ => true
  | _ :: _, [] => false
  | a :: as, b :: bs => if a = b then subseq as bs else subseq (a :: as) bs

/-- A candidate matches a segment when the folded segment is an ordered
subsequence of the folded candidate. -/
def segMatches (seg c : String) : Bool := subseq (lowerStr seg).data (lowerStr c).data

/-- A candidate is a prefix match when the folded segment is a prefix of
the folded candidate. -/
def isPrefixMatch (seg c : String) : Bool :=
  (lowerStr seg).data.isPrefixOf (lowerStr c).data

/-- Lexicographic order on character lists (final tie-break). -/
def lexLe : List Char → List Char → Bool
  | [], _ => true
  | _ :: _, [] => false
  | a :: as, b :: bs => if a = b then lexLe as bs else decide (a < b)

/-- Modelled from the spec: rank order — shorter candidate first, then
lexicographic (section 4.2, step 3, tie-breaks b and c). -/
def candLe (a b : String) : Bool :=
  if a.length = b.length then lexLe a.data b.data else decide (a.length < b.length)

def insertSorted (x : String) : List String → List String
  | [] => [x]
  | y :: ys => if candLe x y then x :: y :: ys else y :: insertSorted x ys

def sortCands (l : List String) : List String := l.foldr insertSorted []

/-- Modelled from the spec: the ranked, filtered candidate list — prefix
matches ranked above subsequence-only matches, each group ordered by
length then lexicographically (section 4.2, steps 2-3). -/
def rankCandidates (cands : List String) (seg : String) : List String :=
  let ms := cands.filter (fun c => segMatches seg c)
  sortCands (ms.filter (fun c => isPrefixMatch seg c)) ++
    sortCands (ms.filter (fun c => !isPrefixMatch seg c))

/-- The unique candidate of which the segment is a prefix, if exactly one
exists (section 4.2, step 5). -/
def uniquePrefixMatch (cands : List String) (seg : String) : Option String :=
  match cands.filter (fun c => isPrefixMatch seg c) with
  | [c] => some c
  | _ => none

/-- Modelled from the spec: the current segment of the input under a
greed — `Word` stops at the next whitespace (the rest begins after one
separating whitespace character, and `hasMore` records whether input
extends past the segment), `Rest` takes all remaining text (section 4.2,
step 1). Returns `(segment, rest, hasMore)`. -/
def splitSegment (greed : ParamGreed) (input : String) : String × String × Bool :=
  match greed with
  | ParamGreed.Word =>
    let seg := input.data.takeWhile (fun c => !c.isWhitespace)
    let restWs := input.data.dropWhile (fun c => !c.isWhitespace)
    (String.mk seg, String.mk (restWs.drop 1), !restWs.isEmpty)
  | ParamGreed.Rest => (input, "", false)

/-- Modelled from the spec: `fzcmd::FuzzyOutput` — the expansion and the
suggestion list of the last `NonTerminal` reached (`none` when a
`Terminal` is reached, turned into `[]` by the caller). -/
structure FuzzyOutput where
  expanded : String
  suggestions : Option (List String)
deriving DecidableEq

/-- Modelled from the spec: the expander walk of section 4.2, applied
segment by segment from the current node. A `Terminal` ends expansion with
no suggestions (step 6). At a `NonTerminal` with exhausted input the
node's own candidate list is returned unfiltered (section 4.2, empty
input). Otherwise the segment is cut per the node's greed; a
case-insensitive exact match descends immediately into that candidate's
continuation, appending the canonical candidate text (step 4); a unique
prefix match auto-completes without descending unless input extends past
the segment (step 5); when no descent is possible, or the continuation has
no match for the segment, expansion stops with the ranked filtered
candidate list (steps 6-7). The fuel argument bounds the walk length and
is set from the input length at the entry point. -/
def expandGo : Nat → String → String → Command → FuzzyOutput
  | _, _, acc, Command.Terminal _ => ⟨acc, none⟩
  | 0, _, acc, Command.NonTerminal _ cands _ => ⟨acc, some cands⟩
  | fuel+1, input, acc, Command.NonTerminal greed cands cont =>
    if input = "" then ⟨acc, some cands⟩
    else
      match splitSegment greed input with
      | (seg, rest, hasMore) =>
        match cands.find? (fun c => decide (lowerStr c = lowerStr seg)) with
        | some c =>
          match cont c with
          | some next =>
            expandGo fuel rest (if hasMore then acc ++ c ++ " " else acc ++ c) next
          | none => ⟨acc ++ seg, some (rankCandidates cands seg)⟩
        | none =>
          match uniquePrefixMatch cands seg with
          | some c =>
            if hasMore then
              match cont c with
              | some next => expandGo fuel rest (acc ++ c ++ " ") next
              | none => ⟨acc ++ seg, some (rankCandidates cands seg)⟩
            else ⟨acc ++ c, some (rankCandidates cands seg)⟩
          | none => ⟨acc ++ seg, some (rankCandidates cands seg)⟩

/-- Modelled from the spec: `fzcmd::expand_command`, the resolution entry
point `resolve(rawInput, root) -> ExpansionResult` (section 4.2). -/
def expandCommand (input : String) (root : Command) : FuzzyOutput :=
  expandGo (input.length + 1) input "" root

/-- `run_fuzzy_parser` (src/commands.rs 246-256): expand the input against
the freshly built grammar and push a `CommandPromptUpdate` with the
expansion and the suggestions (`unwrap_or(vec![])`). The working-directory
listing `dir` is the explicit stand-in for the filesystem read. -/
def runFuzzyParser (input : String) (dir : Option (List String)) (state : State)
    (msgs : List Message) : List Message :=
  let out := expandCommand input (getParser dir state)
  msgs ++ [Message.CommandPromptUpdate out.expanded (out.suggestions.getD [])]

/- ===================== Helper lemmas ===================== -/

lemma takeWhile_of_all {p : Char → Bool} :
    ∀ l : List Char, (∀ c ∈ l, p c = true) →
      l.takeWhile p = l ∧ l.dropWhile p = [] := by
  intro l h
  induction l with
  | nil => exact ⟨rfl, rfl⟩
  | cons a as ih =>
    have ha : p a = true := h a (List.mem_cons_self a as)
    have ih' := ih (fun c hc => h c (List.mem_cons_of_mem a hc))
    refine ⟨?_, ?_⟩
    · simp [List.takeWhile_cons, ha, ih'.1]
    · simp [List.dropWhile_cons, ha, ih'.2]

/-- At a `NonTerminal` whose candidate list has no case-insensitive exact
match for the (whole-input) segment and whose input has no further text,
the expander stops at this node and returns its ranked filtered candidate
list. -/
lemma expandGo_stop (fuel : Nat) (input acc : String) (greed : ParamGreed)
    (cands : List String) (cont : String → Option Command)
    (hne : ¬ input = "")
    (hsplit : splitSegment greed input = (input, "", false))
    (hnx : ∀ c ∈ cands, ¬ lowerStr c = lowerStr input) :
    expandGo (fuel+1) input acc (Command.NonTerminal greed cands cont) =
      ⟨(match uniquePrefixMatch cands input with
         | some c => acc ++ c
         | none => acc ++ input), some (rankCandidates cands input)⟩ := by
  have hfind : cands.find? (fun c => decide (lowerStr c = lowerStr input)) = none := by
    rw [List.find?_eq_none]
    intro x hx
    simpa using hnx x hx
  simp only [expandGo, if_neg hne, hsplit, hfind]
  cases h : uniquePrefixMatch cands input <;> simp [h]

/- ===================== Claims C2 - C10 ===================== -/

/-- C2: for every token given to the `signal_set_name_type` /
`signal_force_name_type` nodes the continuation returns a Terminal action:
a token equal to one of the literals `Local`, `Unique`, `Global` maps to
the corresponding enum value, and any other token falls back to the
default `SignalNameType::Local` instead of failing; no input yields
no-match. -/
theorem claim_C2 :
    (∀ dir s, dispatch dir s "signal_set_name_type" =
      single_word ["Local", "Unique", "Global"] signal_set_name_type_cont) ∧
    (∀ dir s, dispatch dir s "signal_force_name_type" =
      single_word ["Local", "Unique", "Global"] signal_force_name_type_cont) ∧
    (∀ w, ∃ m, signal_set_name_type_cont w = some (Command.Terminal m)) ∧
    (∀ w, ∃ m, signal_force_name_type_cont w = some (Command.Terminal m)) ∧
    signal_set_name_type_cont "Local" =
      some (Command.Terminal (Message.ChangeSignalNameType none SignalNameType.Local)) ∧
    signal_set_name_type_cont "Unique" =
      some (Command.Terminal (Message.ChangeSignalNameType none SignalNameType.Unique)) ∧
    signal_set_name_type_cont "Global" =
      some (Command.Terminal (Message.ChangeSignalNameType none SignalNameType.Global)) ∧
    signal_force_name_type_cont "Local" =
      some (Command.Terminal (Message.ForceSignalNameTypes SignalNameType.Local)) ∧
    signal_force_name_type_cont "Unique" =
      some (Command.Terminal (Message.ForceSignalNameTypes SignalNameType.Unique)) ∧
    signal_force_name_type_cont "Global" =
      some (Command.Terminal (Message.ForceSignalNameTypes SignalNameType.Global)) ∧
    (∀ w, w ∉ ["Local", "Unique", "Global"] →
      signal_set_name_type_cont w =
        some (Command.Terminal (Message.ChangeSignalNameType none SignalNameType.Local)) ∧
      signal_force_name_type_cont w =
        some (Command.Terminal (Message.ForceSignalNameTypes SignalNameType.Local))) := by
  refine ⟨fun dir s => rfl, fun dir s => rfl, fun w => ⟨_, rfl⟩, fun w => ⟨_, rfl⟩,
    rfl, rfl, rfl, rfl, rfl, rfl, ?_⟩
  intro w hw
  simp only [List.mem_cons, List.not_mem_nil, or_false, not_or] at hw
  obtain ⟨h1, h2, h3⟩ := hw
  constructor <;>
    simp [signal_set_name_type_cont, signal_force_name_type_cont,
      SignalNameType.from_str, h1, h2, h3]

/-- Witness for C2 at the non-literal token `"Bogus"`. -/
theorem claim_C2_witness :
    (["Local", "Unique", "Global"].contains "Bogus" = false) ∧
    signal_set_name_type_cont "Bogus" =
      some (Command.Terminal (Message.ChangeSignalNameType none SignalNameType.Local)) :=
  ⟨by decide, (claim_C2.2.2.2.2.2.2.2.2.2.2 "Bogus" (by decide)).1⟩

/-- C3: the root built by `get_parser` is a `NonTerminal` with
single-token (`Word`) greed and the fixed command-name candidate list; its
dispatch continuation returns no match for any token outside the fixed
dispatch table; consequently (under the spec-modelled expander) an input
token with no case-insensitive exact command match leaves the suggestions
equal to the (ranked, filtered) command-name list, with no descent. -/
theorem claim_C3 :
    (∀ dir s, getParser dir s =
      Command.NonTerminal ParamGreed.Word root_candidate_list
        (fun q => dispatch dir s q)) ∧
    (∀ dir s q, q ∉ dispatch_keys → dispatch dir s q = none) ∧
    (∀ dir s t, ¬ t = "" → (∀ c ∈ t.data, c.isWhitespace = false) →
      (∀ c ∈ root_candidate_list, ¬ lowerStr c = lowerStr t) →
      (expandCommand t (getParser dir s)).suggestions =
        some (rankCandidates root_candidate_list t)) := by
  refine ⟨fun dir s => rfl, ?_, ?_⟩
  · intro dir s q hq
    simp only [dispatch_keys, List.mem_cons, List.not_mem_nil, or_false,
      not_or] at hq
    obtain ⟨n1, n2, n3, n4, n5, n6, n7, n8, n9, n10, n11, n12, n13, n14, n15,
      n16, n17, n18, n19⟩ := hq
    simp only [dispatch, if_neg n1, if_neg n2, if_neg n3, if_neg n4, if_neg n5,
      if_neg n6, if_neg n7, if_neg n8, if_neg n9, if_neg n10, if_neg n11,
      if_neg n12, if_neg n13, if_neg n14, if_neg n15, if_neg n16, if_neg n17,
      if_neg n18, if_neg n19]
  · intro dir s t ht hws hnx
    have hall : ∀ c ∈ t.data, (fun c => !c.isWhitespace) c = true := by
      intro c hc
      simp [hws c hc]
    have htw := takeWhile_of_all t.data hall
    have hsp : splitSegment ParamGreed.Word t = (t, "", false) := by
      simp [splitSegment, htw.1, htw.2]
    have hstep := expandGo_stop t.length t "" ParamGreed.Word root_candidate_list
      (fun q => dispatch dir s q) ht hsp hnx
    show (expandGo (t.length + 1) t "" (Command.NonTerminal ParamGreed.Word
      root_candidate_list (fun q => dispatch dir s q))).suggestions = _
    rw [hstep]

/-- Witness for C3 at the unknown token `"bogus"`. -/
theorem claim_C3_witness :
    (decide ("bogus" = "") = false) ∧
    (∀ c ∈ "bogus".data, c.isWhitespace = false) ∧
    (∀ c ∈ root_candidate_list, ¬ lowerStr c = lowerStr "bogus") ∧
    (expandCommand "bogus" (getParser none state0)).suggestions =
      some (rankCandidates root_candidate_list "bogus") :=
  ⟨by decide, by decide, by decide,
    claim_C3.2.2 none state0 "bogus" (by decide) (by decide) (by decide)⟩

/-- C4 counterexample: the `signal_set_name_type` subtree (a closed-enum
argument) is built by `single_word` with `ParamGreed::Rest`, not
`ParamGreed::Word` (the spec's `SingleToken`), refuting the claim at this
concrete node. -/
theorem claim_C4_counterexample :
    (dispatch none state0 "signal_set_name_type").bind Command.greedOf =
      some ParamGreed.Rest ∧
    decide (some ParamGreed.Rest = some ParamGreed.Word) = false :=
  ⟨rfl, by decide⟩

/-- C4 amended: every closed-enum argument subtree and every
document-derived reference argument subtree built by the grammar builder
is a `NonTerminal` with `RestOfInput` greed (`ParamGreed::Rest`, via
`single_word`), not `SingleToken` greed; only the root command-name node
uses `SingleToken` (`ParamGreed::Word`). -/
theorem claim_C4_amended (dir : Option (List String)) (s : State) (q : String)
    (hq : q ∈ ["module_add", "module_select", "signal_add",
      "signal_add_from_module", "signal_set_color", "signal_set_name_type",
      "signal_force_name_type", "signal_focus"]) :
    (dispatch dir s q).bind Command.greedOf = some ParamGreed.Rest ∧
    (getParser dir s).greedOf = some ParamGreed.Word := by
  refine ⟨?_, rfl⟩
  fin_cases hq <;> rfl

/-- Witness for the amended C4 at the `signal_add` subtree. -/
theorem claim_C4_witness :
    (["module_add", "module_select", "signal_add", "signal_add_from_module",
      "signal_set_color", "signal_set_name_type", "signal_force_name_type",
      "signal_focus"].contains "signal_add" = true) ∧
    (dispatch none state0 "signal_add").bind Command.greedOf =
      some ParamGreed.Rest :=
  ⟨by decide, (claim_C4_amended none state0 "signal_add" (by decide)).1⟩

/-- C5 counterexample: the `signal_add` node's continuation wraps any
token — here `"notasignal"`, which is not in the (empty) signal candidate
list of the unloaded snapshot — into a Terminal action by name, instead of
returning no match, refuting the claim for the `signal_add` node. -/
theorem claim_C5_counterexample :
    dispatch none state0 "signal_add" =
      single_word (signals state0) signal_add_cont ∧
    ((signals state0).contains "notasignal" = false) ∧
    signal_add_cont "notasignal" =
      some (Command.Terminal (Message.AddSignal (SignalDescriptor.Name "notasignal"))) :=
  ⟨rfl, by decide, rfl⟩

/-- C5 amended: only the `signal_add_from_module` node's continuation
looks the label up in the mapping built from the same snapshot and returns
no match for an absent label (and the resolved index for a present one);
the `signal_add`, `module_add` and `signal_set_color` continuations
perform no lookup and wrap any token by name into a Terminal action. -/
theorem claim_C5_amended :
    (∀ dir s, dispatch dir s "signal_add_from_module" =
      single_word ((signals_in_active_scope s).map (fun p => p.1))
        (signal_add_from_module_cont (signals_in_active_scope s))) ∧
    (∀ m name, btreeGet m name = none →
      signal_add_from_module_cont m name = none) ∧
    (∀ (m : List (String × Nat)) name idx, btreeGet m name = some idx →
      signal_add_from_module_cont m name =
        some (Command.Terminal (Message.AddSignal (SignalDescriptor.Id idx)))) ∧
    (∀ w, signal_add_cont w =
      some (Command.Terminal (Message.AddSignal (SignalDescriptor.Name w)))) ∧
    (∀ w, module_add_cont w =
      some (Command.Terminal (Message.AddScope (ScopeDescriptor.Name w)))) ∧
    (∀ w, signal_set_color_cont w =
      some (Command.Terminal (Message.SignalColorChange none w))) := by
  refine ⟨fun dir s => rfl, ?_, ?_, fun w => rfl, fun w => rfl, fun w => rfl⟩
  · intro m name h
    simp [signal_add_from_module_cont, h]
  · intro m name idx h
    simp [signal_add_from_module_cont, h]

/-- Witness for the amended C5: an absent label yields no match. -/
theorem claim_C5_witness :
    btreeGet [] "x" = none ∧
    signal_add_from_module_cont [] "x" = none :=
  ⟨rfl, claim_C5_amended.2.1 [] "x" rfl⟩

/-- C6: the `signal_focus` continuation takes the leading prefix of the
token before the first underscore; whenever that prefix fails to decode
(`alpha_idx_to_uint_idx` returns none — in particular for the empty prefix
and for a prefix holding a character outside the codec alphabet) the
continuation returns no match and no action is emitted. -/
theorem claim_C6 :
    (∀ dir s, dispatch dir s "signal_focus" =
      single_word (displayed_signals s) signal_focus_cont) ∧
    (∀ w, alpha_idx_to_uint_idx
        (String.mk (w.data.takeWhile (fun c => c != '_'))) = none →
      signal_focus_cont w = none) ∧
    (alpha_idx_to_uint_idx "" = none) ∧
    (∀ t c, c ∈ t.data → isAlphaLower c = false →
      alpha_idx_to_uint_idx t = none) := by
  refine ⟨fun dir s => rfl, ?_, rfl, ?_⟩
  · intro w h
    simp only [signal_focus_cont, h]
    rfl
  · intro t c hc hval
    have hemp : t.data.isEmpty = false := by
      cases ht : t.data with
      | nil => rw [ht] at hc; cases hc
      | cons a as => rfl
    have hall : t.data.all isAlphaLower = false := by
      rw [List.all_eq_false]
      exact ⟨c, hc, by simp [hval]⟩
    simp [alpha_idx_to_uint_idx, hemp, hall]

/-- Witness for C6 at the token `"3x_sig"`, whose prefix `"3x"` holds a
character outside the alphabet. -/
theorem claim_C6_witness :
    alpha_idx_to_uint_idx
      (String.mk ("3x_sig".data.takeWhile (fun c => c != '_'))) = none ∧
    signal_focus_cont "3x_sig" = none :=
  ⟨by decide, claim_C6.2.1 "3x_sig" (by decide)⟩

/-- C7: with no document loaded (`state.vcd = none`) every
document-derived candidate list is empty, grammar construction still
succeeds (it is total), and the root keeps its fixed command-name
candidate list and `Word` greed. -/
theorem claim_C7 (dir : Option (List String)) (s : State) (h : s.vcd = none) :
    scopes s = [] ∧ signals s = [] ∧ displayed_signals s = [] ∧
    signals_in_active_scope s = [] ∧
    getParser dir s = Command.NonTerminal ParamGreed.Word root_candidate_list
      (fun q => dispatch dir s q) := by
  refine ⟨?_, ?_, ?_, ?_, rfl⟩ <;>
    simp [scopes, signals, displayed_signals, signals_in_active_scope, h]

/-- Witness for C7 at the unloaded snapshot. -/
theorem claim_C7_witness :
    state0.vcd = none ∧ scopes state0 = [] ∧ signals state0 = [] ∧
    displayed_signals state0 = [] ∧ signals_in_active_scope state0 = [] :=
  ⟨rfl, (claim_C7 none state0 rfl).1, (claim_C7 none state0 rfl).2.1,
    (claim_C7 none state0 rfl).2.2.1, (claim_C7 none state0 rfl).2.2.2.1⟩

/-- C8: the working-directory listing is consulted only in the `load_vcd`
branch: dispatching any other token is independent of the directory
listing (never reads the filesystem), the root node's greed and candidate
list are independent of it, and the `load_vcd` subtree's candidate list is
exactly the filtered directory listing. -/
theorem claim_C8 :
    (∀ dir dir2 s q, ¬ q = "load_vcd" → dispatch dir s q = dispatch dir2 s q) ∧
    (∀ dir dir2 s, (getParser dir s).greedOf = (getParser dir2 s).greedOf ∧
      (getParser dir s).candidatesOf = (getParser dir2 s).candidatesOf) ∧
    (∀ dir s, (dispatch dir s "load_vcd").bind Command.candidatesOf =
      some (vcd_files dir)) := by
  refine ⟨?_, fun dir dir2 s => ⟨rfl, rfl⟩, fun dir s => rfl⟩
  intro dir dir2 s q hq
  simp only [dispatch, if_neg hq]

/-- Witness for C8: dispatching `zoom_in` ignores the directory listing. -/
theorem claim_C8_witness :
    (decide ("zoom_in" = "load_vcd") = false) ∧
    dispatch (some ["a.vcd"]) state0 "zoom_in" = dispatch none state0 "zoom_in" :=
  ⟨by decide, claim_C8.1 (some ["a.vcd"]) none state0 "zoom_in" (by decide)⟩

/-- C9 counterexample: with the document/config snapshot and the input
string both fixed, two resolution calls still differ when the working
directory's contents differ between the calls — the directory listing is
an input the claim does not fix. -/
theorem claim_C9_counterexample :
    decide (runFuzzyParser "load_vcd" (some ["./wave.vcd"]) state0 [] =
      runFuzzyParser "load_vcd" (some []) state0 []) = false := by
  decide

/-- C9 amended: resolution is deterministic once the snapshot, the input
string, and the working-directory listing are all fixed — two calls with
identical snapshot, input and directory listing return identical results;
the listing is an additional input, read fresh on every call. -/
theorem claim_C9_amended (input : String) (s : State)
    (dir dir2 : Option (List String)) (msgs : List Message) (h : dir = dir2) :
    runFuzzyParser input dir s msgs = runFuzzyParser input dir2 s msgs := by
  rw [h]

/-- Witness for the amended C9. -/
theorem claim_C9_witness :
    (some ["a.vcd"] : Option (List String)) = some ["a.vcd"] ∧
    runFuzzyParser "load_vcd" (some ["a.vcd"]) state0 [] =
      runFuzzyParser "load_vcd" (some ["a.vcd"]) state0 [] :=
  ⟨rfl, claim_C9_amended "load_vcd" state0 (some ["a.vcd"]) (some ["a.vcd"]) [] rfl⟩

/-- C10: the advertised root candidate `signal_add_from_scope` is a dead
end — the dispatch match has no arm for it (its arm is spelled
`signal_add_from_module`, which in turn is not advertised), so the
dispatch continuation returns no match for an advertised candidate,
contradicting the invariant. -/
theorem claim_C10_bug :
    root_candidate_list.contains "signal_add_from_scope" = true ∧
    (∀ dir s, (dispatch dir s "signal_add_from_scope").isNone = true) ∧
    root_candidate_list.contains "signal_add_from_module" = false ∧
    (∀ dir s, (dispatch dir s "signal_add_from_module").isSome = true) :=
  ⟨by decide, fun dir s => rfl, by decide, fun dir s => rfl⟩
